import Mathlib

/-!
# Verification of the termtype typing-test core (`typeterm/tui.py`)

Shallow embedding of the session state machine, metrics engine and
layout/scroll engine of `src/typeterm/tui.py`, together with theorems
settling the specification claims about them.

Conventions of the embedding:
* Python strings become `List Char`; Python `time.time()` floats become
  exact rationals `ℚ` supplied by the event (`now`).
* `curses` key codes are `Int` (`curses.KEY_BACKSPACE = 263`).
* The word source (`generate_words` in `wordlist.py`, not part of the
  core file) is kept abstract: the initial word list and every 100-word
  extension batch are data carried by the constructor / the key event.
-/

namespace Typeterm

/-- `Config.mode`: `"time"` or `"words"`. -/
inductive Mode
  | time
  | words
deriving DecidableEq, Repr

/-- The test parameters relevant to the core (`Config` dataclass);
`seed` and `wordlist_path` only feed the external word source and are
not part of the session logic. -/
structure Config where
  mode : Mode
  seconds : Int
  words : Int
deriving DecidableEq, Repr

/-- One word slot of the stream (`WordState` dataclass). -/
structure WordState where
  target : List Char
  typed : List Char := []
deriving DecidableEq, Repr

/-- The aggregate session state (`TypingSession` attributes). -/
structure Session where
  cfg : Config
  words : List WordState
  index : Nat
  view_start : Nat
  started_at : Option ℚ
  ended_at : Option ℚ
  total_keystrokes : Nat
  correct_chars : Nat
  incorrect_chars : Nat
  completed_words : Nat
deriving DecidableEq, Repr

/-- `TypingSession.__init__`: counters at zero, nothing started.  The
generated initial word list (from `generate_words`) is passed in as
`ws`. -/
def initSession (cfg : Config) (ws : List (List Char)) : Session :=
  { cfg := cfg
    words := ws.map (fun w => { target := w })
    index := 0
    view_start := 0
    started_at := none
    ended_at := none
    total_keystrokes := 0
    correct_chars := 0
    incorrect_chars := 0
    completed_words := 0 }

/-- The constructor's word-count request
(`nwords = max(cfg.words, 200) if cfg.mode == "time" else cfg.words`);
the list generated from it is what `initSession` receives. -/
def initialWordCount (cfg : Config) : Int :=
  match cfg.mode with
  | .time => max cfg.words 200
  | .words => cfg.words

/-- `TypingSession.elapsed`. -/
def elapsed (s : Session) (now : ℚ) : ℚ :=
  match s.started_at with
  | none => 0
  | some st => max 0 ((s.ended_at.getD now) - st)

/-- `TypingSession.is_running`. -/
def isRunning (s : Session) : Bool :=
  s.started_at.isSome && s.ended_at.isNone

/-- `TypingSession.is_finished`. -/
def isFinished (s : Session) : Bool :=
  s.ended_at.isSome

/-- `TypingSession.current_word` (Python indexes `words[index]`; the
out-of-range default is never reached from states where the original
code would not raise). -/
def currentWord (s : Session) : WordState :=
  s.words.getD s.index { target := [] }

/-- Replace the current word's `typed` field in place
(`self.current_word().typed = ...`). -/
def setTyped (s : Session) (t : List Char) : Session :=
  { s with words := s.words.set s.index { target := (currentWord s).target, typed := t } }

/-- The per-character test of the submission loop:
`i < len(target) and c == target[i]`. -/
def charJudged (target : List Char) (i : Nat) (c : Char) : Bool :=
  decide (i < target.length) && (c == target.getD i ' ')

/-- The submission counting loop
(`for i, c in enumerate(typed): ...`), returning
(correct increment, incorrect increment) before the shortfall rule. -/
def judgeLoop (target : List Char) : List Char → Nat → Nat × Nat
  | [], _ => (0, 0)
  | c :: rest, i =>
    let r := judgeLoop target rest (i + 1)
    if charJudged target i c then (r.1 + 1, r.2) else (r.1, r.2 + 1)

/-- `TypingSession._extend_words`: append a fresh batch (the word
source is asked for 100 unseeded words; the batch is the parameter). -/
def extendWords (s : Session) (fresh : List (List Char)) : Session :=
  { s with words := s.words ++ fresh.map (fun w => { target := w }) }

/-- `TypingSession._submit_word`.  `now` stands for the `time.time()`
calls, `fresh` for the batch a triggered extension would generate. -/
def submitWord (s : Session) (now : ℚ) (fresh : List (List Char)) : Session :=
  let target := (currentWord s).target
  let typed := (currentWord s).typed
  let j := judgeLoop target typed 0
  let shortfall := target.length - typed.length
  let s1 : Session :=
    { s with
      correct_chars := s.correct_chars + j.1
      incorrect_chars := s.incorrect_chars + j.2 + shortfall
      completed_words := s.completed_words + 1
      index := s.index + 1 }
  if s1.cfg.mode = .words ∧ (s1.cfg.words : Int) ≤ (s1.completed_words : Int) then
    { s1 with ended_at := some now }
  else if s1.words.length ≤ s1.index then
    extendWords s1 fresh
  else
    s1

/-- `curses.KEY_BACKSPACE`. -/
def KEY_BACKSPACE : Int := 263

/-- The unconditional start-of-session assignment at the top of
`handle_key` (`if self.started_at is None: self.started_at = time.time()`). -/
def startOn (s : Session) (now : ℚ) : Session :=
  if s.started_at = none then { s with started_at := some now } else s

/-- `TypingSession.handle_key`.  The Python method first assigns
`started_at` (modelled by `startOn s0 now`) and then reads the mutated
session in every branch. -/
def handleKey (s0 : Session) (ch : Int) (now : ℚ) (fresh : List (List Char)) : Session :=
  if isFinished s0 then s0
  else if ch = KEY_BACKSPACE ∨ ch = 127 ∨ ch = 8 then
    if (currentWord (startOn s0 now)).typed ≠ [] then
      { setTyped (startOn s0 now) (currentWord (startOn s0 now)).typed.dropLast with
          total_keystrokes := (startOn s0 now).total_keystrokes + 1 }
    else startOn s0 now
  else if ch = 10 ∨ ch = 13 ∨ ch = 32 then
    submitWord (startOn s0 now) now fresh
  else if 32 ≤ ch ∧ ch ≤ 126 then
    { setTyped (startOn s0 now)
        ((currentWord (startOn s0 now)).typed ++ [Char.ofNat ch.toNat]) with
        total_keystrokes := (startOn s0 now).total_keystrokes + 1 }
  else startOn s0 now

/-- `TypingSession.tick`. -/
def tick (s : Session) (now : ℚ) : Session :=
  if s.cfg.mode = .time ∧ isRunning s = true then
    if (s.cfg.seconds : ℚ) ≤ elapsed s now then { s with ended_at := some now } else s
  else s

/-- `TypingSession.wpm`. -/
def wpm (s : Session) (now : ℚ) : ℚ :=
  let e := max (elapsed s now) (1 / 1000000000)
  ((s.correct_chars : ℚ) / 5) / (e / 60)

/-- `TypingSession.accuracy`. -/
def accuracy (s : Session) : ℚ :=
  let total := s.correct_chars + s.incorrect_chars
  if total = 0 then 100
  else ((s.correct_chars : ℚ) / (total : ℚ)) * 100

/-! ## Event model

`run_curses` feeds the session either a keystroke (followed by a
`tick`) or an idle-timeout `tick`.  A key event carries the time of the
`time.time()` calls and the batch a triggered extension would draw. -/

/-- One input event delivered to the session. -/
inductive Event
  | key (ch : Int) (now : ℚ) (fresh : List (List Char))
  | tick (now : ℚ)

/-- Word Source contract (spec-modelled, `wordlist.generate_words` is
outside the core file): an extension batch has exactly 100 words. -/
def Event.valid : Event → Prop
  | .key _ _ fresh => fresh.length = 100
  | .tick _ => True

/-- Apply one event to the session. -/
def step (s : Session) : Event → Session
  | .key ch now fresh => handleKey s ch now fresh
  | .tick now => tick s now

/-- `run_curses` loop body for a typing key (not ESC/TAB/timeout):
`handle_key` then `tick` when the session is not finished. -/
def loopKeyStep (s : Session) (ch : Int) (now : ℚ) (fresh : List (List Char)) : Session :=
  if isFinished s then s else tick (handleKey s ch now fresh) now

/-- States reachable from `s0` by a sequence of contract-respecting
events. -/
inductive Reachable (s0 : Session) : Session → Prop
  | refl : Reachable s0 s0
  | next {s : Session} (e : Event) : Reachable s0 s → e.valid → Reachable s0 (step s e)

/-! ## Layout & scroll engine (`draw_words_area`) -/

/-- The greedy wrapping loop of the inner `layout` function: place the
given suffix of the word list (whose first element has absolute index
`idx`) starting at row `y`, column `x0`; produce the
`(word_index, row, column)` triples. -/
def layoutPositions (width height : Nat) :
    List WordState → Nat → Nat → Nat → List (Nat × Nat × Nat)
  | [], _, _, _ => []
  | w :: rest, idx, y, x0 =>
    if height ≤ y then []
    else
      let n := w.target.length
      let needSpace : Nat := if 0 < x0 then 1 else 0
      if width < x0 + needSpace + n then
        if height ≤ y + 1 then []
        else (idx, y + 1, 0) :: layoutPositions width height rest (idx + 1) (y + 1) n
      else
        (idx, y, x0 + needSpace) ::
          layoutPositions width height rest (idx + 1) y (x0 + needSpace + n)

/-- The inner `layout(start_idx)`: positions plus the row of the
current word when it was placed (`current_line`). -/
def layout (ws : List WordState) (curIndex width height start : Nat) :
    List (Nat × Nat × Nat) × Option Nat :=
  let ps := layoutPositions width height (ws.drop start) start 0 0
  (ps, (ps.find? (fun p => p.1 = curIndex)).map (fun p => p.2.1))

/-- The bounded scroll search (`for _ in range(1000)`): starting from
`start`, return the first candidate whose layout shows the current
word, or `start + fuel` when every candidate fails. -/
def scrollSearch (ws : List WordState) (curIndex width height : Nat) :
    Nat → Nat → Nat
  | start, 0 => start
  | start, fuel + 1 =>
    match (layout ws curIndex width height start).2 with
    | some cur =>
        if cur < height then start
        else scrollSearch ws curIndex width height (start + 1) fuel
    | none => scrollSearch ws curIndex width height (start + 1) fuel

/-- `draw_words_area` as observed behaviour: the session with the
persisted `view_start`, plus the list of `(index, row, column)` draw
positions handed to the renderer. -/
def drawWordsArea (s : Session) (width height : Nat) :
    Session × List (Nat × Nat × Nat) :=
  let v := scrollSearch s.words s.index width height s.view_start 1000
  ({ s with view_start := v }, (layout s.words s.index width height v).1)

/-! ## A wide-viewport scroll scenario

A word stream of 1001 one-character words followed by one
2000-character word, typed on a 2001×1 viewport.  Row 0 holds exactly
the 1001 short words, so every render pass accepts `view_start = 0`
while the current word index is at most 1000; once the long word
becomes current (index 1001), no candidate start in `[0, 999]` — nor
the fallthrough start 1000 — can place it. -/

/-- A one-character word slot. -/
def oneW : WordState := { target := ['a'] }

/-- A 2000-character word slot. -/
def bigW : WordState := { target := List.replicate 2000 'b' }

/-- The generated word texts for the scenario. -/
def c7Init : List (List Char) := List.replicate 1001 ['a'] ++ [List.replicate 2000 'b']

/-- The space keystroke event of the scenario (its unused extension
batch respecting the 100-word contract). -/
def c7Event : Event := Event.key 32 0 (List.replicate 100 ['c'])

/-- One `run_curses` iteration for a typing keystroke on the 2001×1
viewport: render (the layout pass), handle the key, tick. -/
def c7LoopStep (s : Session) (e : Event) : Session :=
  tick (step (drawWordsArea s 2001 1).1 e) 0

/-- The session after `m` empty submissions of the scenario (the state
the loop reaches: `m` words submitted untouched, `view_start` still 0). -/
def c7State (m : Nat) : Session :=
  { cfg := ⟨Mode.time, 60, 50⟩
    words := List.replicate 1001 oneW ++ [bigW]
    index := m
    view_start := 0
    started_at := if m = 0 then none else some 0
    ended_at := none
    total_keystrokes := 0
    correct_chars := 0
    incorrect_chars := m
    completed_words := m }

/-- The scenario session: a fresh session fed 1001 space keystrokes
through the full loop cadence (a layout pass before every keystroke). -/
def c7SessR : Session :=
  List.foldl c7LoopStep (initSession ⟨Mode.time, 60, 50⟩ c7Init)
    (List.replicate 1001 c7Event)

/-! ## Spec-side counting for submission accounting -/

/-- The number of positions `i < len(typed)` with `i < len(target)` and
`typed[i] == target[i]` (the claim's correct-character count). -/
def specCorrectCount (g t : List Char) : Nat :=
  (List.range t.length).countP fun i =>
    decide (i < g.length) && (t.getD i ' ' == g.getD i ' ')

/-- The number of positions `i < len(typed)` that mismatch or lie beyond
`len(target)` (the claim's per-position incorrect count, before the
untyped shortfall). -/
def specWrongCount (g t : List Char) : Nat :=
  (List.range t.length).countP fun i =>
    !(decide (i < g.length) && (t.getD i ' ' == g.getD i ' '))

/-! ## Projection lemmas -/

@[simp]
theorem startOn_cfg (s : Session) (now : ℚ) : (startOn s now).cfg = s.cfg := by
  unfold startOn; split <;> rfl

@[simp]
theorem startOn_words (s : Session) (now : ℚ) : (startOn s now).words = s.words := by
  unfold startOn; split <;> rfl

@[simp]
theorem startOn_index (s : Session) (now : ℚ) : (startOn s now).index = s.index := by
  unfold startOn; split <;> rfl

@[simp]
theorem startOn_view_start (s : Session) (now : ℚ) :
    (startOn s now).view_start = s.view_start := by
  unfold startOn; split <;> rfl

@[simp]
theorem startOn_ended_at (s : Session) (now : ℚ) :
    (startOn s now).ended_at = s.ended_at := by
  unfold startOn; split <;> rfl

@[simp]
theorem startOn_correct (s : Session) (now : ℚ) :
    (startOn s now).correct_chars = s.correct_chars := by
  unfold startOn; split <;> rfl

@[simp]
theorem startOn_incorrect (s : Session) (now : ℚ) :
    (startOn s now).incorrect_chars = s.incorrect_chars := by
  unfold startOn; split <;> rfl

@[simp]
theorem startOn_completed (s : Session) (now : ℚ) :
    (startOn s now).completed_words = s.completed_words := by
  unfold startOn; split <;> rfl

@[simp]
theorem startOn_currentWord (s : Session) (now : ℚ) :
    currentWord (startOn s now) = currentWord s := by
  unfold currentWord; rw [startOn_words, startOn_index]

@[simp]
theorem setTyped_cfg (s : Session) (t : List Char) : (setTyped s t).cfg = s.cfg := rfl

@[simp]
theorem setTyped_index (s : Session) (t : List Char) : (setTyped s t).index = s.index := rfl

@[simp]
theorem setTyped_ended_at (s : Session) (t : List Char) :
    (setTyped s t).ended_at = s.ended_at := rfl

@[simp]
theorem setTyped_started_at (s : Session) (t : List Char) :
    (setTyped s t).started_at = s.started_at := rfl

@[simp]
theorem setTyped_correct (s : Session) (t : List Char) :
    (setTyped s t).correct_chars = s.correct_chars := rfl

@[simp]
theorem setTyped_incorrect (s : Session) (t : List Char) :
    (setTyped s t).incorrect_chars = s.incorrect_chars := rfl

@[simp]
theorem setTyped_completed (s : Session) (t : List Char) :
    (setTyped s t).completed_words = s.completed_words := rfl

@[simp]
theorem setTyped_words_length (s : Session) (t : List Char) :
    (setTyped s t).words.length = s.words.length := by
  unfold setTyped; simp

theorem submitWord_index (s : Session) (now : ℚ) (fresh : List (List Char)) :
    (submitWord s now fresh).index = s.index + 1 := by
  simp only [submitWord]
  split
  · rfl
  · split <;> rfl

theorem submitWord_completed (s : Session) (now : ℚ) (fresh : List (List Char)) :
    (submitWord s now fresh).completed_words = s.completed_words + 1 := by
  simp only [submitWord]
  split
  · rfl
  · split <;> rfl

theorem submitWord_correct (s : Session) (now : ℚ) (fresh : List (List Char)) :
    (submitWord s now fresh).correct_chars
      = s.correct_chars + (judgeLoop (currentWord s).target (currentWord s).typed 0).1 := by
  simp only [submitWord]
  split
  · rfl
  · split <;> rfl

theorem submitWord_incorrect (s : Session) (now : ℚ) (fresh : List (List Char)) :
    (submitWord s now fresh).incorrect_chars
      = s.incorrect_chars + (judgeLoop (currentWord s).target (currentWord s).typed 0).2
          + ((currentWord s).target.length - (currentWord s).typed.length) := by
  simp only [submitWord]
  split
  · rfl
  · split <;> rfl

theorem submitWord_ended_at (s : Session) (now : ℚ) (fresh : List (List Char)) :
    (submitWord s now fresh).ended_at
      = if s.cfg.mode = .words ∧ (s.cfg.words : Int) ≤ ((s.completed_words + 1 : Nat) : Int)
        then some now else s.ended_at := by
  simp only [submitWord]
  split
  · rfl
  · split <;> rfl

/-! ## C9: metrics before start, accuracy formula -/

/-- C9: for a freshly constructed session `elapsed` is `0`, `accuracy`
is exactly `100` and `wpm` is `0`; in general `accuracy` is `100` when
no characters have been judged and `100 * correct / (correct + incorrect)`
otherwise. -/
theorem c9_metrics (cfg : Config) (ws : List (List Char)) (now : ℚ) :
    elapsed (initSession cfg ws) now = 0 ∧
    accuracy (initSession cfg ws) = 100 ∧
    wpm (initSession cfg ws) now = 0 ∧
    (∀ s : Session, s.correct_chars + s.incorrect_chars = 0 → accuracy s = 100) ∧
    (∀ s : Session, s.correct_chars + s.incorrect_chars ≠ 0 →
      accuracy s = 100 * (s.correct_chars : ℚ)
        / ((s.correct_chars : ℚ) + (s.incorrect_chars : ℚ))) := by
  refine ⟨?_, ?_, ?_, ?_, ?_⟩
  · simp [elapsed, initSession]
  · simp [accuracy, initSession]
  · simp [wpm, initSession]
  · intro s h
    simp [accuracy, h]
  · intro s h
    rw [accuracy]
    rw [if_neg h]
    push_cast
    ring

/-- Witness for C9 at a concrete configuration and a concrete judged
session. -/
theorem c9_metrics_witness :
    accuracy (initSession ⟨Mode.time, 60, 50⟩ [['h', 'i']]) = 100 ∧
    accuracy { initSession ⟨Mode.time, 60, 50⟩ [['h', 'i']] with
                correct_chars := 3, incorrect_chars := 1 }
      = 100 * ((3 : Nat) : ℚ) / (((3 : Nat) : ℚ) + ((1 : Nat) : ℚ)) := by
  have h := c9_metrics ⟨Mode.time, 60, 50⟩ [['h', 'i']] 0
  exact ⟨h.2.1, h.2.2.2.2 _ (by decide)⟩

/-! ## C2: ignored keys -/

/-- C2 counterexample: the claim says a key that is neither backspace,
a submit key, nor printable ASCII leaves the session unchanged, and in
particular does not record `startedAt` on a `NotStarted` session.  The
code sets `started_at` before classifying the key, so key code `0`
changes a fresh session. -/
theorem c2_counterexample :
    handleKey (initSession ⟨Mode.time, 60, 50⟩ [['a']]) 0 5 []
      ≠ initSession ⟨Mode.time, 60, 50⟩ [['a']] := by
  decide

/-- C2 amended: on a session that is not finished, a key that is
neither backspace, a submit key, nor printable ASCII changes nothing
except that it records `startedAt := now` when the session had not yet
started — any key, accepted or ignored, starts the session. -/
theorem c2_ignored_key_starts (s : Session) (ch : Int) (now : ℚ)
    (fresh : List (List Char))
    (hfin : s.ended_at = none)
    (hb : ¬(ch = KEY_BACKSPACE ∨ ch = 127 ∨ ch = 8))
    (hs : ¬(ch = 10 ∨ ch = 13 ∨ ch = 32))
    (hp : ¬(32 ≤ ch ∧ ch ≤ 126)) :
    handleKey s ch now fresh
      = (if s.started_at = none then { s with started_at := some now } else s) := by
  rw [handleKey]
  rw [if_neg (by simp [isFinished, hfin])]
  simp only [hb, hs, hp, if_false, startOn]

/-- Witness for the amended C2 statement: key code `0` on a fresh
session only records `startedAt`. -/
theorem c2_ignored_key_starts_witness :
    handleKey (initSession ⟨Mode.time, 60, 50⟩ [['a']]) 0 5 []
      = { initSession ⟨Mode.time, 60, 50⟩ [['a']] with started_at := some 5 } := by
  have h := c2_ignored_key_starts (initSession ⟨Mode.time, 60, 50⟩ [['a']]) 0 5 []
    rfl (by decide) (by decide) (by decide)
  simpa [initSession] using h

/-! ## C1: submission accounting -/

theorem handleKey_submit_eq (s : Session) (ch : Int) (now : ℚ)
    (fresh : List (List Char))
    (hfin : s.ended_at = none) (hch : ch = 10 ∨ ch = 13 ∨ ch = 32) :
    handleKey s ch now fresh = submitWord (startOn s now) now fresh := by
  have hb : ¬(ch = KEY_BACKSPACE ∨ ch = 127 ∨ ch = 8) := by
    rcases hch with rfl | rfl | rfl <;> decide
  rw [handleKey]
  rw [if_neg (by simp [isFinished, hfin])]
  simp only [hb, hch, if_true, if_false]

theorem judgeLoop_counts (g t : List Char) : ∀ i : Nat,
    judgeLoop g t i
      = ((List.range t.length).countP (fun j => charJudged g (i + j) (t.getD j ' ')),
         (List.range t.length).countP (fun j => !charJudged g (i + j) (t.getD j ' '))) := by
  induction t with
  | nil => intro i; simp [judgeLoop]
  | cons c rest ih =>
    intro i
    simp only [judgeLoop]
    rw [ih (i + 1)]
    simp only [List.length_cons, List.range_succ_eq_map, List.countP_cons, List.countP_map]
    have e1 : ((fun j => charJudged g (i + j) ((c :: rest).getD j ' ')) ∘ Nat.succ)
        = fun j => charJudged g (i + 1 + j) (rest.getD j ' ') := by
      funext j
      show charJudged g (i + (j + 1)) ((c :: rest).getD (j + 1) ' ')
          = charJudged g (i + 1 + j) (rest.getD j ' ')
      rw [List.getD_cons_succ]
      have hij : i + (j + 1) = i + 1 + j := by omega
      rw [hij]
    have e2 : ((fun j => !charJudged g (i + j) ((c :: rest).getD j ' ')) ∘ Nat.succ)
        = fun j => !charJudged g (i + 1 + j) (rest.getD j ' ') := by
      funext j
      show (!charJudged g (i + (j + 1)) ((c :: rest).getD (j + 1) ' '))
          = !charJudged g (i + 1 + j) (rest.getD j ' ')
      rw [List.getD_cons_succ]
      have hij : i + (j + 1) = i + 1 + j := by omega
      rw [hij]
    rw [e1, e2]
    by_cases hc : charJudged g i c
    · simp [hc]
    · simp [hc]

theorem judgeLoop_zero (g t : List Char) :
    judgeLoop g t 0 = (specCorrectCount g t, specWrongCount g t) := by
  rw [judgeLoop_counts g t 0]
  unfold specCorrectCount specWrongCount
  simp only [Nat.zero_add]
  rfl

/-- C1: submitting a word adds to `correctChars` the number of typed
positions matching the target and to `incorrectChars` the number of
typed positions that mismatch or lie beyond the target plus the
untyped shortfall; in particular `"cat"`/`"cot"` gives `+2`/`+1`,
`"cat"`/`""` gives `+0`/`+3`, and `"hi"`/`"hire"` gives `+2`/`+2`. -/
theorem c1_submission_accounting :
    (∀ (s : Session) (ch : Int) (now : ℚ) (fresh : List (List Char)),
      s.ended_at = none → (ch = 10 ∨ ch = 13 ∨ ch = 32) →
      (handleKey s ch now fresh).correct_chars
          = s.correct_chars
              + specCorrectCount (currentWord s).target (currentWord s).typed ∧
      (handleKey s ch now fresh).incorrect_chars
          = s.incorrect_chars
              + specWrongCount (currentWord s).target (currentWord s).typed
              + ((currentWord s).target.length - (currentWord s).typed.length)) ∧
    specCorrectCount "cat".toList "cot".toList = 2 ∧
    specWrongCount "cat".toList "cot".toList = 1 ∧
    "cat".toList.length - "cot".toList.length = 0 ∧
    specCorrectCount "cat".toList [] = 0 ∧
    specWrongCount "cat".toList [] + ("cat".toList.length - ([] : List Char).length) = 3 ∧
    specCorrectCount "hi".toList "hire".toList = 2 ∧
    specWrongCount "hi".toList "hire".toList = 2 ∧
    "hi".toList.length - "hire".toList.length = 0 := by
  refine ⟨?_, by decide, by decide, by decide, by decide, by decide, by decide,
    by decide, by decide⟩
  intro s ch now fresh hfin hch
  rw [handleKey_submit_eq s ch now fresh hfin hch]
  constructor
  · rw [submitWord_correct, startOn_correct, startOn_currentWord, judgeLoop_zero]
  · rw [submitWord_incorrect, startOn_incorrect, startOn_currentWord, judgeLoop_zero]

/-- Witness for C1: submitting typed `"cot"` against target `"cat"` on
a concrete session updates both counters as claimed. -/
theorem c1_submission_accounting_witness :
    (handleKey { initSession ⟨Mode.time, 60, 50⟩ [] with
        words := [{ target := "cat".toList, typed := "cot".toList }] } 32 4 []).correct_chars
      = 0 + specCorrectCount "cat".toList "cot".toList ∧
    (handleKey { initSession ⟨Mode.time, 60, 50⟩ [] with
        words := [{ target := "cat".toList, typed := "cot".toList }] } 32 4 []).incorrect_chars
      = 0 + specWrongCount "cat".toList "cot".toList
          + ("cat".toList.length - "cot".toList.length) := by
  exact c1_submission_accounting.1 _ 32 4 [] rfl (Or.inr (Or.inr rfl))

/-! ## C3 / C4: termination rules -/

/-- C4: in words mode, a submission that brings `completedWords` up to
the configured target sets `endedAt` immediately (for any submission
time), and a submission that leaves `completedWords` below the target
leaves `endedAt` unset. -/
theorem c4_words_mode_termination (s : Session) (ch : Int) (now : ℚ)
    (fresh : List (List Char))
    (hm : s.cfg.mode = Mode.words) (hfin : s.ended_at = none)
    (hch : ch = 10 ∨ ch = 13 ∨ ch = 32) :
    (handleKey s ch now fresh).completed_words = s.completed_words + 1 ∧
    ((s.cfg.words : Int) ≤ ((s.completed_words + 1 : Nat) : Int) →
      (handleKey s ch now fresh).ended_at = some now) ∧
    (((s.completed_words + 1 : Nat) : Int) < (s.cfg.words : Int) →
      (handleKey s ch now fresh).ended_at = none) := by
  rw [handleKey_submit_eq s ch now fresh hfin hch]
  refine ⟨?_, ?_, ?_⟩
  · rw [submitWord_completed, startOn_completed]
  · intro h
    rw [submitWord_ended_at]
    rw [if_pos]
    refine ⟨by rw [startOn_cfg]; exact hm, ?_⟩
    rw [startOn_cfg, startOn_completed]
    exact h
  · intro h
    rw [submitWord_ended_at]
    rw [if_neg, startOn_ended_at]
    · exact hfin
    · rw [startOn_cfg, startOn_completed]
      rintro ⟨-, hle⟩
      exact absurd hle (not_le.mpr h)

/-- Witness for C4: with `words = 1`, submitting the first word on an
otherwise fresh session finishes it. -/
theorem c4_words_mode_termination_witness :
    (handleKey (initSession ⟨Mode.words, 60, 1⟩ [['h', 'i']]) 32 9 []).completed_words
        = 0 + 1 ∧
    (handleKey (initSession ⟨Mode.words, 60, 1⟩ [['h', 'i']]) 32 9 []).ended_at
        = some 9 := by
  have h := c4_words_mode_termination (initSession ⟨Mode.words, 60, 1⟩ [['h', 'i']])
    32 9 [] rfl rfl (Or.inr (Or.inr rfl))
  exact ⟨h.1, h.2.1 (by decide)⟩

/-- C3: in time mode `tick` sets `endedAt` exactly when the session is
running and `now − startedAt` has reached the configured duration; the
loop re-runs this check after every processed keystroke; and with
`seconds = 0` the first tick after a session started by a printable
(non-submit) keystroke finishes it with `completedWords = 0`. -/
theorem c3_time_mode_termination :
    (∀ (s : Session) (now : ℚ), s.cfg.mode = Mode.time → isRunning s = true →
      (s.cfg.seconds : ℚ) ≤ elapsed s now → (tick s now).ended_at = some now) ∧
    (∀ (s : Session) (now : ℚ), elapsed s now < (s.cfg.seconds : ℚ) →
      tick s now = s) ∧
    (∀ (s : Session) (ch : Int) (now : ℚ) (fresh : List (List Char)),
      isFinished s = false →
      loopKeyStep s ch now fresh = tick (handleKey s ch now fresh) now) ∧
    (∀ (w : Int) (ws : List (List Char)) (ch : Int) (t t' : ℚ),
      32 ≤ ch → ch ≤ 126 → ch ≠ 32 →
      (tick (handleKey (initSession ⟨Mode.time, 0, w⟩ ws) ch t []) t').ended_at
          = some t' ∧
      (tick (handleKey (initSession ⟨Mode.time, 0, w⟩ ws) ch t []) t').completed_words
          = 0) := by
  have hfire : ∀ (s : Session) (now : ℚ), s.cfg.mode = Mode.time → isRunning s = true →
      (s.cfg.seconds : ℚ) ≤ elapsed s now → (tick s now).ended_at = some now := by
    intro s now hm hr hsec
    rw [tick, if_pos ⟨hm, hr⟩, if_pos hsec]
  refine ⟨hfire, ?_, ?_, ?_⟩
  · intro s now h
    rw [tick]
    split
    · rw [if_neg (not_le.mpr h)]
    · rfl
  · intro s ch now fresh h
    rw [loopKeyStep, if_neg (by simp [h])]
  · intro w ws ch t t' h1 h2 h3
    have hb : ¬(ch = KEY_BACKSPACE ∨ ch = 127 ∨ ch = 8) := by
      show ¬(ch = 263 ∨ ch = 127 ∨ ch = 8)
      omega
    have hs2 : ¬(ch = 10 ∨ ch = 13 ∨ ch = 32) := by omega
    have hkey : handleKey (initSession ⟨Mode.time, 0, w⟩ ws) ch t []
        = { setTyped (startOn (initSession ⟨Mode.time, 0, w⟩ ws) t)
              ((currentWord (startOn (initSession ⟨Mode.time, 0, w⟩ ws) t)).typed
                ++ [Char.ofNat ch.toNat]) with
            total_keystrokes :=
              (startOn (initSession ⟨Mode.time, 0, w⟩ ws) t).total_keystrokes + 1 } := by
      rw [handleKey]
      rw [if_neg (by simp [isFinished, initSession])]
      simp only [hb, hs2, if_false]
      rw [if_pos ⟨h1, h2⟩]
    have hst : (handleKey (initSession ⟨Mode.time, 0, w⟩ ws) ch t []).started_at
        = some t := by
      rw [hkey]
      show (setTyped (startOn (initSession ⟨Mode.time, 0, w⟩ ws) t)
        ((currentWord (startOn (initSession ⟨Mode.time, 0, w⟩ ws) t)).typed
          ++ [Char.ofNat ch.toNat])).started_at = some t
      rw [setTyped_started_at]
      simp [startOn, initSession]
    have hend : (handleKey (initSession ⟨Mode.time, 0, w⟩ ws) ch t []).ended_at
        = none := by
      rw [hkey]
      show (setTyped (startOn (initSession ⟨Mode.time, 0, w⟩ ws) t)
        ((currentWord (startOn (initSession ⟨Mode.time, 0, w⟩ ws) t)).typed
          ++ [Char.ofNat ch.toNat])).ended_at = none
      rw [setTyped_ended_at, startOn_ended_at]
      rfl
    have hcfg : (handleKey (initSession ⟨Mode.time, 0, w⟩ ws) ch t []).cfg
        = ⟨Mode.time, 0, w⟩ := by
      rw [hkey]
      show (setTyped (startOn (initSession ⟨Mode.time, 0, w⟩ ws) t)
        ((currentWord (startOn (initSession ⟨Mode.time, 0, w⟩ ws) t)).typed
          ++ [Char.ofNat ch.toNat])).cfg = ⟨Mode.time, 0, w⟩
      rw [setTyped_cfg, startOn_cfg]
      rfl
    have hcw : (handleKey (initSession ⟨Mode.time, 0, w⟩ ws) ch t []).completed_words
        = 0 := by
      rw [hkey]
      show (setTyped (startOn (initSession ⟨Mode.time, 0, w⟩ ws) t)
        ((currentWord (startOn (initSession ⟨Mode.time, 0, w⟩ ws) t)).typed
          ++ [Char.ofNat ch.toNat])).completed_words = 0
      rw [setTyped_completed, startOn_completed]
      rfl
    have htick : tick (handleKey (initSession ⟨Mode.time, 0, w⟩ ws) ch t []) t'
        = { handleKey (initSession ⟨Mode.time, 0, w⟩ ws) ch t [] with
            ended_at := some t' } := by
      rw [tick]
      rw [if_pos ⟨by rw [hcfg], by simp [isRunning, hst, hend]⟩]
      rw [if_pos]
      rw [hcfg]
      show ((0 : Int) : ℚ) ≤ elapsed (handleKey (initSession ⟨Mode.time, 0, w⟩ ws) ch t []) t'
      rw [Int.cast_zero]
      simp only [elapsed, hst, hend, Option.getD_none]
      exact le_max_left 0 _
    rw [htick]
    exact ⟨rfl, hcw⟩

/-- Witness for C3 at concrete inputs: a running time-mode session past
its duration finishes on tick, an unfinished one survives an early
tick, the loop ticks after a keystroke, and the `seconds = 0` scenario
finishes with no completed words. -/
theorem c3_time_mode_termination_witness :
    (tick { initSession ⟨Mode.time, 0, 50⟩ [['a']] with started_at := some 1 } 2).ended_at
        = some 2 ∧
    tick { initSession ⟨Mode.time, 60, 50⟩ [['a']] with started_at := some 1 } 2
        = { initSession ⟨Mode.time, 60, 50⟩ [['a']] with started_at := some 1 } ∧
    (tick (handleKey (initSession ⟨Mode.time, 0, 50⟩ [['a']]) 97 3 []) 4).ended_at
        = some 4 ∧
    (tick (handleKey (initSession ⟨Mode.time, 0, 50⟩ [['a']]) 97 3 []) 4).completed_words
        = 0 := by
  have h := c3_time_mode_termination
  refine ⟨?_, ?_, ?_, ?_⟩
  · refine h.1 _ 2 rfl rfl ?_
    simp only [elapsed, initSession]
    norm_num
  · refine h.2.1 _ 2 ?_
    simp only [elapsed, initSession]
    norm_num
  · exact (h.2.2.2 50 [['a']] 97 3 4 (by norm_num) (by norm_num) (by norm_num)).1
  · exact (h.2.2.2 50 [['a']] 97 3 4 (by norm_num) (by norm_num) (by norm_num)).2

/-! ## C5: Finished is terminal -/

/-- C5: once `endedAt` is set, both `handle_key` (for any key) and
`tick` leave the session unchanged, and no operation ever changes an
already-set `endedAt` — it is set at most once per session instance. -/
theorem c5_finished_terminal (s : Session) (e : Event) :
    (∀ t0 : ℚ, s.ended_at = some t0 → step s e = s) ∧
    (s.ended_at = none ∨ (step s e).ended_at = s.ended_at) := by
  have hstop : ∀ t0 : ℚ, s.ended_at = some t0 → step s e = s := by
    intro t0 h
    cases e with
    | key ch now fresh =>
      simp [step, handleKey, isFinished, h]
    | tick now =>
      simp [step, tick, isRunning, h]
  refine ⟨hstop, ?_⟩
  rcases he : s.ended_at with _ | t0
  · exact Or.inl rfl
  · exact Or.inr ((congrArg Session.ended_at (hstop t0 he)).trans he)

/-- Witness for C5: a concrete finished session absorbs a tick and a
keystroke. -/
theorem c5_finished_terminal_witness :
    step { initSession ⟨Mode.time, 60, 50⟩ [['a']] with ended_at := some 3 }
        (Event.tick 7)
      = { initSession ⟨Mode.time, 60, 50⟩ [['a']] with ended_at := some 3 } := by
  exact (c5_finished_terminal _ (Event.tick 7)).1 3 rfl

/-! ## C10 / C6: reachability invariants -/

theorem step_index_completed (s : Session) (e : Event)
    (h : s.index = s.completed_words) :
    (step s e).index = (step s e).completed_words := by
  cases e with
  | tick now =>
    show (tick s now).index = (tick s now).completed_words
    rw [tick]
    split
    · split
      · exact h
      · exact h
    · exact h
  | key ch now fresh =>
    show (handleKey s ch now fresh).index = (handleKey s ch now fresh).completed_words
    rw [handleKey]
    split
    · exact h
    · split
      · split
        · simpa using h
        · simpa using h
      · split
        · rw [submitWord_index, submitWord_completed, startOn_index, startOn_completed, h]
        · split
          · simpa using h
          · simpa using h

theorem step_index_mono (s : Session) (e : Event) : s.index ≤ (step s e).index := by
  cases e with
  | tick now =>
    show s.index ≤ (tick s now).index
    rw [tick]
    split
    · split
      · exact Nat.le_refl _
      · exact Nat.le_refl _
    · exact Nat.le_refl _
  | key ch now fresh =>
    show s.index ≤ (handleKey s ch now fresh).index
    rw [handleKey]
    split
    · exact Nat.le_refl _
    · split
      · split
        · simp
        · simp
      · split
        · rw [submitWord_index, startOn_index]
          exact Nat.le_succ _
        · split
          · simp
          · simp

/-- The stream-bound invariant of the claim: `index` never exceeds
`len(words)`, strictly while the session has not finished. -/
def SessionInv (s : Session) : Prop :=
  s.index ≤ s.words.length ∧ (s.ended_at = none → s.index < s.words.length)

theorem submitWord_inv (s : Session) (now : ℚ) (fresh : List (List Char))
    (hfresh : fresh.length = 100) (hlt : s.index < s.words.length) :
    SessionInv (submitWord s now fresh) := by
  simp only [submitWord]
  split
  · constructor
    · show s.index + 1 ≤ s.words.length
      omega
    · intro hc
      exact Option.noConfusion hc
  · split
    · constructor
      · show s.index + 1 ≤ (s.words ++ fresh.map (fun w => ({ target := w } : WordState))).length
        rw [List.length_append, List.length_map, hfresh]
        omega
      · intro _
        show s.index + 1 < (s.words ++ fresh.map (fun w => ({ target := w } : WordState))).length
        rw [List.length_append, List.length_map, hfresh]
        omega
    · next hno =>
      have hno2 : ¬(s.words.length ≤ s.index + 1) := hno
      constructor
      · show s.index + 1 ≤ s.words.length
        omega
      · intro _
        show s.index + 1 < s.words.length
        omega

theorem step_inv (s : Session) (e : Event) (hv : e.valid) (h : SessionInv s) :
    SessionInv (step s e) := by
  obtain ⟨h1, h2⟩ := h
  cases e with
  | tick now =>
    show SessionInv (tick s now)
    rw [tick]
    split
    · split
      · exact ⟨h1, fun hc => Option.noConfusion hc⟩
      · exact ⟨h1, h2⟩
    · exact ⟨h1, h2⟩
  | key ch now fresh =>
    have hfresh : fresh.length = 100 := hv
    show SessionInv (handleKey s ch now fresh)
    rw [handleKey]
    split
    · exact ⟨h1, h2⟩
    · next hfin =>
      have hnone : s.ended_at = none := by
        rcases he : s.ended_at with _ | t0
        · rfl
        · exact absurd (by simp [isFinished, he]) hfin
      have hlt : s.index < s.words.length := h2 hnone
      split
      · split
        · exact ⟨by simpa using h1, fun _ => by simpa using hlt⟩
        · exact ⟨by simpa using h1, fun _ => by simpa using hlt⟩
      · split
        · refine submitWord_inv (startOn s now) now fresh hfresh ?_
          simpa using hlt
        · split
          · exact ⟨by simpa using h1, fun _ => by simpa using hlt⟩
          · exact ⟨by simpa using h1, fun _ => by simpa using hlt⟩

/-- C10: in every reachable session state the current word index and
the completed-word counter coincide — both start at 0 and are only
ever incremented together during word submission. -/
theorem c10_index_eq_completed (cfg : Config) (ws : List (List Char)) (s : Session)
    (h : Reachable (initSession cfg ws) s) : s.index = s.completed_words := by
  induction h with
  | refl => rfl
  | next e hr hv ih => exact step_index_completed _ e ih

/-- Witness for C10 after a concrete submission step. -/
theorem c10_index_eq_completed_witness :
    (step (initSession ⟨Mode.time, 60, 50⟩ [['a'], ['b']])
        (Event.key 32 1 (List.replicate 100 ['c']))).index
      = (step (initSession ⟨Mode.time, 60, 50⟩ [['a'], ['b']])
          (Event.key 32 1 (List.replicate 100 ['c']))).completed_words := by
  exact c10_index_eq_completed ⟨Mode.time, 60, 50⟩ [['a'], ['b']] _
    (Reachable.next (Event.key 32 1 (List.replicate 100 ['c'])) Reachable.refl
      (by simp [Event.valid]))

/-- C6: across every event sequence the index never decreases, and in
every state reachable from a fresh session with a nonempty initial
stream (extensions appending their 100-word batches inside
submission), `index ≤ len(words)` holds. -/
theorem c6_monotone_bounded (cfg : Config) (ws : List (List Char)) :
    (∀ s s' : Session, Reachable s s' → s.index ≤ s'.index) ∧
    (∀ s : Session, 0 < ws.length → Reachable (initSession cfg ws) s →
      s.index ≤ s.words.length) := by
  constructor
  · intro s s' h
    induction h with
    | refl => exact Nat.le_refl _
    | next e hr hv ih => exact le_trans ih (step_index_mono _ e)
  · intro s hws h
    have hinv : SessionInv s := by
      induction h with
      | refl =>
        constructor
        · exact Nat.zero_le _
        · intro _
          simpa [initSession] using hws
      | next e hr hv ih => exact step_inv _ e hv ih
    exact hinv.1

/-- Witness for C6 after a concrete submission that triggers the
100-word extension (two words, submitting past the end of neither). -/
theorem c6_monotone_bounded_witness :
    (initSession ⟨Mode.time, 60, 50⟩ [['a']]).index
        ≤ (step (initSession ⟨Mode.time, 60, 50⟩ [['a']])
            (Event.key 32 1 (List.replicate 100 ['c']))).index ∧
    (step (initSession ⟨Mode.time, 60, 50⟩ [['a']])
        (Event.key 32 1 (List.replicate 100 ['c']))).index
      ≤ (step (initSession ⟨Mode.time, 60, 50⟩ [['a']])
          (Event.key 32 1 (List.replicate 100 ['c']))).words.length := by
  constructor
  · exact (c6_monotone_bounded ⟨Mode.time, 60, 50⟩ [['a']]).1 _ _
      (Reachable.next (Event.key 32 1 (List.replicate 100 ['c'])) Reachable.refl
        (by simp [Event.valid]))
  · exact (c6_monotone_bounded ⟨Mode.time, 60, 50⟩ [['a']]).2 _ (by decide)
      (Reachable.next (Event.key 32 1 (List.replicate 100 ['c'])) Reachable.refl
        (by simp [Event.valid]))

/-! ## C7 / C8: layout & scroll engine -/

theorem layout_at_index (ws : List WordState) (width height idx : Nat)
    (hidx : idx < ws.length) (hh : 0 < height)
    (hw : (ws[idx]).target.length ≤ width) :
    (layout ws idx width height idx).2 = some 0 := by
  rw [layout]
  rw [List.drop_eq_getElem_cons hidx]
  simp only [layoutPositions]
  rw [if_neg (by omega : ¬ height ≤ 0)]
  rw [if_neg (show ¬ width < 0 + (if 0 < (0 : Nat) then 1 else 0) + (ws[idx]).target.length by
    simp only [lt_self_iff_false, if_false, Nat.zero_add]
    omega)]
  rw [List.find?_cons_of_pos _ (by simp)]
  rfl

theorem scrollSearch_success (ws : List WordState) (cur width height : Nat)
    (hself : ∃ r, (layout ws cur width height cur).2 = some r ∧ r < height) :
    ∀ (fuel start : Nat), start ≤ cur → cur < start + fuel →
      ∃ r, (layout ws cur width height
              (scrollSearch ws cur width height start fuel)).2 = some r ∧ r < height := by
  intro fuel
  induction fuel with
  | zero =>
    intro start h1 h2
    omega
  | succ fuel ih =>
    intro start h1 h2
    simp only [scrollSearch]
    rcases hl : (layout ws cur width height start).2 with _ | c
    · have hne : start ≠ cur := by
        rintro rfl
        rcases hself with ⟨r, hr, -⟩
        rw [hl] at hr
        exact Option.noConfusion hr
      exact ih (start + 1) (by omega) (by omega)
    · show ∃ r, (layout ws cur width height
          (if c < height then start
           else scrollSearch ws cur width height (start + 1) fuel)).2 = some r ∧ r < height
      by_cases hc : c < height
      · rw [if_pos hc]
        exact ⟨c, hl, hc⟩
      · rw [if_neg hc]
        have hne : start ≠ cur := by
          rintro rfl
          rcases hself with ⟨r, hr, hrh⟩
          rw [hl] at hr
          injection hr with h3
          exact hc (h3 ▸ hrh)
        exact ih (start + 1) (by omega) (by omega)

/-- C7 amended: for a viewport of height at least 1 whose width fits
every target word, and a session whose persisted `viewStart` does not
exceed the current index and trails it by fewer than 1000 words (the
search budget), the layout-and-scroll pass places the current word at
a row inside `[0, height)`, and the pass changes no session field
other than `view_start`.  The budget hypothesis is essential: the
counterexample reaches a state with `index = viewStart + 1001` on a
viewport the original claim covers, where the pass fails. -/
theorem c7_scroll_invariant (s : Session) (width height : Nat)
    (hh : 1 ≤ height)
    (hw : ∀ w ∈ s.words, w.target.length ≤ width)
    (hvs : s.view_start ≤ s.index)
    (hgap : s.index < s.view_start + 1000)
    (hidx : s.index < s.words.length) :
    (∃ r, (layout s.words s.index width height
            (drawWordsArea s width height).1.view_start).2 = some r ∧ r < height) ∧
    (drawWordsArea s width height).1
      = { s with view_start := (drawWordsArea s width height).1.view_start } := by
  have hself : ∃ r, (layout s.words s.index width height s.index).2 = some r ∧ r < height := by
    refine ⟨0, ?_, hh⟩
    exact layout_at_index s.words width height s.index hidx hh
      (hw _ (List.getElem_mem hidx))
  constructor
  · exact scrollSearch_success s.words s.index width height hself 1000 s.view_start hvs hgap
  · rfl

/-- Witness for C7 on a concrete one-word session and 2×1 viewport. -/
theorem c7_scroll_invariant_witness :
    ∃ r, (layout (initSession ⟨Mode.time, 60, 50⟩ [['h', 'i']]).words 0 2 1
            (drawWordsArea (initSession ⟨Mode.time, 60, 50⟩ [['h', 'i']]) 2 1).1.view_start).2
          = some r ∧ r < 1 := by
  exact (c7_scroll_invariant (initSession ⟨Mode.time, 60, 50⟩ [['h', 'i']]) 2 1
    (by decide) (by decide) (by decide) (by decide) (by decide)).1

theorem scrollSearch_fail (ws : List WordState) (cur width height : Nat) :
    ∀ (fuel start : Nat),
      (∀ k, k < fuel → (layout ws cur width height (start + k)).2 = none) →
      scrollSearch ws cur width height start fuel = start + fuel := by
  intro fuel
  induction fuel with
  | zero =>
    intro start _
    rfl
  | succ fuel ih =>
    intro start h
    simp only [scrollSearch]
    have h0 : (layout ws cur width height start).2 = none := by
      have h1 := h 0 (by omega)
      simpa using h1
    have h3 : ∀ k, k < fuel → (layout ws cur width height (start + 1 + k)).2 = none := by
      intro k hk
      have h2 := h (k + 1) (by omega)
      rw [show start + 1 + k = start + (k + 1) by omega]
      exact h2
    rw [h0]
    show scrollSearch ws cur width height (start + 1) fuel = start + (fuel + 1)
    rw [ih (start + 1) h3]
    omega

/-! ### The wide-viewport counterexample to the original C7 -/

theorem oneW_len : oneW.target.length = 1 := rfl

/-- The one-step unfolding of the wrapping loop on a nonempty list
(used for single rewrites where `simp` would keep unfolding a literal
word list). -/
theorem layoutPositions_cons (width height : Nat) (w : WordState) (rest : List WordState)
    (idx y x0 : Nat) :
    layoutPositions width height (w :: rest) idx y x0
      = if height ≤ y then []
        else
          if width < x0 + (if 0 < x0 then 1 else 0) + w.target.length then
            if height ≤ y + 1 then []
            else (idx, y + 1, 0) ::
              layoutPositions width height rest (idx + 1) (y + 1) w.target.length
          else
            (idx, y, x0 + (if 0 < x0 then 1 else 0)) ::
              layoutPositions width height rest (idx + 1) y
                (x0 + (if 0 < x0 then 1 else 0) + w.target.length) := rfl

theorem bigW_len : bigW.target.length = 2000 := by
  show (List.replicate 2000 'b').length = 2000
  rw [List.length_replicate]

theorem getD_replicate_append {α : Type} (d a : α) (l : List α) :
    ∀ (n m : Nat), m < n → (List.replicate n a ++ l).getD m d = a := by
  intro n
  induction n with
  | zero => intro m h; omega
  | succ j ih =>
    intro m h
    rw [List.replicate_succ]
    cases m with
    | zero => rfl
    | succ m' =>
      show (List.replicate j a ++ l).getD m' d = a
      exact ih m' (by omega)

theorem drop_replicate_append {α : Type} (a : α) (l : List α) :
    ∀ (k n : Nat), k ≤ n →
      (List.replicate n a ++ l).drop k = List.replicate (n - k) a ++ l := by
  intro k
  induction k with
  | zero => intro n h; simp
  | succ j ih =>
    intro n h
    cases n with
    | zero => omega
    | succ n' =>
      rw [List.replicate_succ]
      show (List.replicate n' a ++ l).drop j = List.replicate (n' + 1 - (j + 1)) a ++ l
      rw [show n' + 1 - (j + 1) = n' - j by omega]
      exact ih n' (by omega)

/-- Walking the row (height 1, width 2001) over short words from a
nonzero column never reaches the long word: it needs `x0 + 1 + 2000`
columns, more than 2001 for every positive `x0`, and the wrap is cut
by the height.  So the current word 1001 is never found. -/
theorem c7_walk_miss : ∀ (n idx x0 : Nat), 0 < x0 → idx + n ≤ 1001 →
    (layoutPositions 2001 1 (List.replicate n oneW ++ [bigW]) idx 0 x0).find?
      (fun p => p.1 = 1001) = none := by
  intro n
  induction n with
  | zero =>
    intro idx x0 hx _
    rw [List.replicate_zero, List.nil_append]
    simp only [layoutPositions]
    rw [bigW_len]
    rw [if_neg (by omega : ¬ (1 : Nat) ≤ 0)]
    rw [if_pos hx]
    rw [if_pos (by omega : 2001 < x0 + 1 + 2000)]
    rw [if_pos (by omega : (1 : Nat) ≤ 0 + 1)]
    rfl
  | succ n' ih =>
    intro idx x0 hx hidx
    rw [List.replicate_succ, List.cons_append]
    simp only [layoutPositions]
    rw [oneW_len]
    rw [if_neg (by omega : ¬ (1 : Nat) ≤ 0)]
    rw [if_pos hx]
    by_cases hfit : 2001 < x0 + 1 + 1
    · rw [if_pos hfit]
      rw [if_pos (by omega : (1 : Nat) ≤ 0 + 1)]
      rfl
    · rw [if_neg hfit]
      rw [List.find?_cons_of_neg _ ?_]
      · exact ih (idx + 1) (x0 + 1 + 1) (by omega) (by omega)
      · intro hcontra
        have h5 : idx = 1001 := of_decide_eq_true hcontra
        omega

/-- Walking the row over `n` short words from a nonzero column whose
budget fits them all finds any index in the covered range at row 0. -/
theorem c7_walk_hit : ∀ (n idx x0 cur : Nat), 0 < x0 → x0 + 2 * n ≤ 2001 →
    idx ≤ cur → cur < idx + n →
    ∃ c, (layoutPositions 2001 1 (List.replicate n oneW ++ [bigW]) idx 0 x0).find?
      (fun p => p.1 = cur) = some (cur, 0, c) := by
  intro n
  induction n with
  | zero =>
    intro idx x0 cur _ _ h1 h2
    omega
  | succ n' ih =>
    intro idx x0 cur hx hfit h1 h2
    rw [List.replicate_succ, List.cons_append]
    simp only [layoutPositions]
    rw [oneW_len]
    rw [if_neg (by omega : ¬ (1 : Nat) ≤ 0)]
    rw [if_pos hx]
    rw [if_neg (by omega : ¬ 2001 < x0 + 1 + 1)]
    by_cases hcur : idx = cur
    · subst hcur
      exact ⟨x0 + 1, List.find?_cons_of_pos _ (decide_eq_true rfl)⟩
    · rw [List.find?_cons_of_neg _ ?_]
      · exact ih (idx + 1) (x0 + 1 + 1) cur (by omega) (by omega) (by omega) (by omega)
      · intro hc
        exact hcur (of_decide_eq_true hc)

/-- With the long word current (index 1001), layout from any start
`k ≤ 1000` fails to place it: the first short word occupies column 0,
and from then on the long word never fits the single row. -/
theorem c7_layout_miss (k : Nat) (hk : k ≤ 1000) :
    (layout (List.replicate 1001 oneW ++ [bigW]) 1001 2001 1 k).2 = none := by
  simp only [layout]
  rw [drop_replicate_append oneW [bigW] k 1001 (by omega)]
  rw [show 1001 - k = (1000 - k) + 1 by omega, List.replicate_succ, List.cons_append]
  simp only [layoutPositions]
  rw [oneW_len]
  rw [if_neg (by omega : ¬ (1 : Nat) ≤ 0)]
  rw [if_neg (by omega : ¬ (0 : Nat) < 0)]
  rw [if_neg (by omega : ¬ 2001 < 0 + 0 + 1)]
  rw [List.find?_cons_of_neg _ ?_]
  · rw [c7_walk_miss (1000 - k) (k + 1) (0 + 0 + 1) (by omega) (by omega)]
    rfl
  · intro hcontra
    have h5 : k = 1001 := of_decide_eq_true hcontra
    omega

/-- While a short word `m ≤ 1000` is current, layout from start 0
places it at row 0 (all 1001 short words fill row 0 exactly). -/
theorem c7_layout_hit (m : Nat) (hm : m ≤ 1000) :
    (layout (List.replicate 1001 oneW ++ [bigW]) m 2001 1 0).2 = some 0 := by
  simp only [layout]
  rw [List.drop_zero]
  rw [show (1001 : Nat) = 1000 + 1 from rfl, List.replicate_succ, List.cons_append]
  rw [layoutPositions_cons]
  rw [oneW_len]
  rw [if_neg (by omega : ¬ (1 : Nat) ≤ 0)]
  rw [if_neg (by omega : ¬ (0 : Nat) < 0)]
  rw [if_neg (by omega : ¬ 2001 < 0 + 0 + 1)]
  by_cases hm0 : m = 0
  · subst hm0
    rw [List.find?_cons_of_pos _ ?_]
    · rfl
    · exact decide_eq_true rfl
  · rw [List.find?_cons_of_neg _ ?_]
    · obtain ⟨c, hc⟩ := c7_walk_hit 1000 1 (0 + 0 + 1) m (by omega) (by omega) (by omega) (by omega)
      rw [hc]
      rfl
    · intro hc
      exact hm0 (of_decide_eq_true hc).symm

theorem scrollSearch_at_first (ws : List WordState) (cur width height start r : Nat)
    (hl : (layout ws cur width height start).2 = some r) (hr : r < height) :
    ∀ fuel, 0 < fuel → scrollSearch ws cur width height start fuel = start := by
  intro fuel hf
  cases fuel with
  | zero => omega
  | succ f =>
    simp only [scrollSearch]
    rw [hl]
    show (if r < height then start else scrollSearch ws cur width height (start + 1) f) = start
    rw [if_pos hr]

/-- Every render pass before the long word becomes current accepts the
persisted `view_start = 0` and returns the session unchanged. -/
theorem c7_draw_id (m : Nat) (hm : m ≤ 1000) :
    (drawWordsArea (c7State m) 2001 1).1 = c7State m := by
  have hs : scrollSearch (c7State m).words (c7State m).index 2001 1
      (c7State m).view_start 1000 = 0 := by
    exact scrollSearch_at_first (c7State m).words (c7State m).index 2001 1 0 0
      (c7_layout_hit m hm) (by omega) 1000 (by omega)
  show ({ c7State m with
      view_start := (scrollSearch (c7State m).words (c7State m).index 2001 1 (c7State m).view_start 1000) } : Session)
    = c7State m
  rw [hs]
  rfl

theorem c7_init_eq : initSession ⟨Mode.time, 60, 50⟩ c7Init = c7State 0 := by
  simp only [initSession, c7Init, c7State, List.map_append, List.map_replicate]
  rfl

theorem c7_startOn (m : Nat) :
    startOn (c7State m) 0 = { c7State m with started_at := some 0 } := by
  cases m with
  | zero => rfl
  | succ k => rfl

theorem c7_state_started (m : Nat) (hm : 1 ≤ m) :
    ({ c7State m with started_at := some 0 } : Session) = c7State m := by
  cases m with
  | zero => omega
  | succ k => rfl

/-- Submitting the (untouched) current short word advances the state by
one: one more incorrect character (the untyped shortfall), one more
completed word, index one further; no finish, no extension. -/
theorem c7_submit (m : Nat) (hm : m ≤ 1000) :
    submitWord { c7State m with started_at := some 0 } 0 (List.replicate 100 ['c'])
      = { c7State (m + 1) with started_at := some 0 } := by
  have hcw : currentWord { c7State m with started_at := some 0 } = oneW := by
    show (List.replicate 1001 oneW ++ [bigW]).getD m { target := [] } = oneW
    exact getD_replicate_append { target := [] } oneW [bigW] 1001 m (by omega)
  simp only [submitWord]
  rw [hcw]
  rw [if_neg ?hc1]
  case hc1 =>
    rintro ⟨hmode, -⟩
    exact Mode.noConfusion hmode
  rw [if_neg ?hc2]
  case hc2 =>
    intro hlen
    have h2 : (List.replicate 1001 oneW ++ [bigW]).length ≤ m + 1 := hlen
    rw [List.length_append, List.length_replicate] at h2
    simp only [List.length_cons, List.length_nil] at h2
    omega
  rfl

theorem c7_tick_id (m : Nat) :
    tick ({ c7State m with started_at := some 0 } : Session) 0
      = { c7State m with started_at := some 0 } := by
  rw [tick]
  rw [if_pos ⟨rfl, rfl⟩]
  rw [if_neg ?hsec]
  case hsec =>
    show ¬ (((60 : Int) : ℚ) ≤ elapsed { c7State m with started_at := some 0 } 0)
    have helap : elapsed ({ c7State m with started_at := some 0 } : Session) 0 = 0 := by
      show max 0 ((Option.getD none 0 : ℚ) - 0) = 0
      norm_num
    rw [helap]
    norm_num

theorem c7_loopStep_eq (m : Nat) (hm : m ≤ 1000) :
    c7LoopStep (c7State m) c7Event = c7State (m + 1) := by
  rw [c7LoopStep]
  rw [c7_draw_id m hm]
  show tick (handleKey (c7State m) 32 0 (List.replicate 100 ['c'])) 0 = c7State (m + 1)
  rw [handleKey_submit_eq (c7State m) 32 0 (List.replicate 100 ['c']) rfl
    (Or.inr (Or.inr rfl))]
  rw [c7_startOn m]
  rw [c7_submit m hm]
  rw [c7_tick_id (m + 1)]
  exact c7_state_started (m + 1) (by omega)

theorem c7_fold : ∀ (n m : Nat), m + n = 1001 →
    List.foldl c7LoopStep (c7State m) (List.replicate n c7Event) = c7State 1001 := by
  intro n
  induction n with
  | zero =>
    intro m h
    rw [show m = 1001 by omega]
    rfl
  | succ n' ih =>
    intro m h
    rw [List.replicate_succ, List.foldl_cons]
    rw [c7_loopStep_eq m (by omega)]
    exact ih (m + 1) (by omega)

theorem c7SessR_eq : c7SessR = c7State 1001 := by
  rw [c7SessR, c7_init_eq]
  exact c7_fold 1001 0 (by omega)

/-- C7 counterexample: the claim quantifies over every viewport with
`height ≥ 1` and `width ≥` the maximum word length and over any number
of submissions.  On a 2001×1 viewport, the session reached by 1001
empty submissions under the full loop cadence (a layout pass before
every keystroke — each of which keeps `view_start = 0` because the
1001 short words fill row 0 exactly and the current word stays
visible) satisfies these hypotheses, yet the next pass tries starts
0..999, all failing, and the drawn layout at the persisted
`view_start = 1000` still does not contain the current word 1001: the
pass does not place the current word at any row. -/
theorem c7_counterexample :
    (∀ w ∈ c7SessR.words, w.target.length ≤ 2001) ∧
    (1 : Nat) ≤ 1 ∧
    c7SessR.ended_at = none ∧
    c7SessR.index = 1001 ∧
    c7SessR.view_start = 0 ∧
    (drawWordsArea c7SessR 2001 1).1.view_start = 1000 ∧
    (layout c7SessR.words c7SessR.index 2001 1
        (drawWordsArea c7SessR 2001 1).1.view_start).2 = none := by
  rw [c7SessR_eq]
  have hfail : ∀ k, k < 1000 →
      (layout (c7State 1001).words (c7State 1001).index 2001 1
        ((c7State 1001).view_start + k)).2 = none := by
    intro k hk
    show (layout (List.replicate 1001 oneW ++ [bigW]) 1001 2001 1 (0 + k)).2 = none
    rw [Nat.zero_add]
    exact c7_layout_miss k (by omega)
  have hs : scrollSearch (c7State 1001).words (c7State 1001).index 2001 1
      (c7State 1001).view_start 1000 = 1000 := by
    have h2 := scrollSearch_fail (c7State 1001).words (c7State 1001).index 2001 1
      1000 (c7State 1001).view_start hfail
    rw [h2]
    show 0 + 1000 = 1000
    rw [Nat.zero_add]
  have hvs : (drawWordsArea (c7State 1001) 2001 1).1.view_start = 1000 := by
    simp only [drawWordsArea]
    exact hs
  refine ⟨?_, by omega, rfl, rfl, rfl, hvs, ?_⟩
  · intro w hw
    rcases List.mem_append.mp hw with h | h
    · rw [List.eq_of_mem_replicate h, oneW_len]
      omega
    · rw [List.mem_singleton.mp h, bigW_len]
      omega
  · rw [hvs]
    exact c7_layout_miss 1000 (by omega)

/-- C8 amended: when every candidate of the bounded scroll search
fails, `draw_words_area` does not crash or loop: it silently persists
`viewStart + 1000` on the session and draws the layout computed at
that start exactly as in the success case — and that drawn layout does
not contain the current word.  No error is reported. -/
theorem c8_silent_cap_behavior (s : Session) (width height : Nat)
    (hfail : ∀ k, k ≤ 1000 →
      (layout s.words s.index width height (s.view_start + k)).2 = none) :
    drawWordsArea s width height
        = ({ s with view_start := s.view_start + 1000 },
           (layout s.words s.index width height (s.view_start + 1000)).1) ∧
    ∀ p ∈ (drawWordsArea s width height).2, ¬ p.1 = s.index := by
  have hsearch : scrollSearch s.words s.index width height s.view_start 1000
      = s.view_start + 1000 :=
    scrollSearch_fail s.words s.index width height 1000 s.view_start
      (fun k hk => hfail k (by omega))
  have hdraw : drawWordsArea s width height
      = ({ s with view_start := s.view_start + 1000 },
         (layout s.words s.index width height (s.view_start + 1000)).1) := by
    simp only [drawWordsArea, hsearch]
  refine ⟨hdraw, ?_⟩
  intro p hp
  rw [hdraw] at hp
  have h1000 := hfail 1000 (Nat.le_refl _)
  rw [layout] at h1000
  rw [layout] at hp
  simp only [Option.map_eq_none', List.find?_eq_none] at h1000
  have := h1000 p hp
  simpa using this

set_option maxRecDepth 100000 in
/-- C8 counterexample: the claim says a failed scroll search is
reported as a display error (typing area skipped with a notice) rather
than silently proceeding.  On a one-word session whose word (length 2)
cannot fit a width-1, height-1 viewport, every candidate fails, and
the code silently persists `view_start = 1000` and hands the renderer
the ordinary (here empty) layout of that start — the output is shaped
exactly like a success, with no error signal anywhere. -/
theorem c8_counterexample :
    (∀ k, k ≤ 1000 →
      (layout (initSession ⟨Mode.time, 60, 50⟩ [['a', 'a']]).words 0 1 1 k).2 = none) ∧
    drawWordsArea (initSession ⟨Mode.time, 60, 50⟩ [['a', 'a']]) 1 1
      = ({ initSession ⟨Mode.time, 60, 50⟩ [['a', 'a']] with view_start := 1000 }, []) := by
  decide

set_option maxRecDepth 100000 in
/-- Witness for the amended C8 statement at the same concrete input. -/
theorem c8_silent_cap_behavior_witness :
    drawWordsArea (initSession ⟨Mode.time, 60, 50⟩ [['a', 'a']]) 1 1
        = ({ initSession ⟨Mode.time, 60, 50⟩ [['a', 'a']] with view_start := 0 + 1000 },
           (layout (initSession ⟨Mode.time, 60, 50⟩ [['a', 'a']]).words 0 1 1 (0 + 1000)).1) := by
  exact (c8_silent_cap_behavior (initSession ⟨Mode.time, 60, 50⟩ [['a', 'a']]) 1 1
    (by decide)).1

end Typeterm
